import Mathlib

/-!
Verification development for `specialsoss/locate_trace.py` (trace location
for SOSS 2D frames).  The Python source is shallowly embedded: real-valued
detector data and fit parameters become rationals, numpy arrays become
lists, and the external `scipy.optimize.curve_fit` call becomes an oracle
parameter (a function from the chosen model tag, column data and bounds to
a fitted parameter vector).  File I/O (the `.npy` cache) becomes an
explicit `Option` cache argument, and the thread pool becomes an explicit
completion schedule (a permutation of the column indices).
-/

namespace LocateTrace

/-- A Python value passed for the `radius` keyword: `None`, an `int`, or a
`float`.  `isinstance(radius, int)` holds exactly for the `int` variant. -/
inductive PyVal where
  | none : PyVal
  | int : ℤ → PyVal
  | float : ℚ → PyVal
deriving DecidableEq

/-- Tag for the cross-dispersion model passed to `curve_fit`:
`xdsp.batman` (single order, 6 parameters) or `xdsp.batmen`
(two orders, 12 parameters). -/
inductive FuncTag where
  | batman : FuncTag
  | batmen : FuncTag
deriving DecidableEq

/-- Horner evaluation, as `np.polyval(coeffs, x)` with the leading
coefficient first. -/
def polyval (coeffs : List ℚ) (x : ℚ) : ℚ :=
  coeffs.foldl (fun acc c => acc * x + c) 0

/-- The polynomial coefficients of `trace_polynomial` (source lines
303-304), decimal literals as exact rationals, indexed by `order - 1`. -/
def trace_coeffs (order : ℕ) : List ℚ :=
  [[171164994/10^19, -472119272/10^16, 510276801/10^13, -591535309/10^10, 830680347/10^7],
   [235792131/10^21, 242999478/10^16, 103641247/10^13, -363088657/10^10, 996766537/10^7]].getD
    (order - 1) []

/-- The trace curve `trace_polynomial(order)`:
`np.polyval(coeffs[order-1], np.arange(2048))`. -/
def trace_polynomial (order : ℕ) : List ℚ :=
  (List.range 2048).map (fun (i : ℕ) => polyval (trace_coeffs order) (i : ℚ))

/-- A reduced mixed-gaussian component `(mu, sigma, A)`. -/
structure Gauss where
  mu : ℚ
  sigma : ℚ
  amp : ℚ
deriving DecidableEq

instance : Inhabited Gauss := ⟨⟨0, 0, 0⟩⟩

/-- Indexing into the fitted parameter vector (out-of-range reads default
to 0; `curve_fit` always returns exactly as many parameters as the bounds
prescribe, so in-contract runs never hit the default). -/
def pget (params : List ℚ) (i : ℕ) : ℚ := params.getD i 0

/-- The three gaussian components derived from the six parameters starting
at offset `off` of the fitted vector: `p1 = params[off:off+3]`,
`p2 = [params[off]-params[off+5], params[off+3], params[off+4]]`,
`p3 = [params[off]+params[off+5], params[off+3], params[off+4]]`
(source lines 199-201 with `off = 0`, lines 225-227 with `off = 6`). -/
def reduce_components (params : List ℚ) (off : ℕ) : List Gauss :=
  [⟨pget params off, pget params (off+1), pget params (off+2)⟩,
   ⟨pget params off - pget params (off+5), pget params (off+3), pget params (off+4)⟩,
   ⟨pget params off + pget params (off+5), pget params (off+3), pget params (off+4)⟩]

/-- Stable insertion of a component into a list sorted by `mu`
(the element goes after all elements with equal or smaller key, matching
Python's stable `sorted(..., key=lambda x: x[0])`). -/
def insert_mu (g : Gauss) : List Gauss → List Gauss
  | [] => [g]
  | h :: t => if g.mu < h.mu then g :: h :: t else h :: insert_mu g t

/-- Stable sort by center position `mu`, as `sorted(..., key=lambda x: x[0])`
on source lines 204 and 230. -/
def sort_components (l : List Gauss) : List Gauss :=
  l.foldl (fun acc g => insert_mu g acc) []

/-- The `(llim, ulim)` pair derived from the sorted components (source
lines 206-214 for order 1, 232-240 for order 2): with an `int` radius the
middle component's center ± radius, otherwise the lowest component's
center − σ·sigma to the highest component's center + σ·sigma. -/
def fit_limits (comps : List Gauss) (radius : PyVal) (sigma : ℚ) : ℚ × ℚ :=
  match radius with
  | PyVal.int r => ((comps.getD 1 default).mu - r, (comps.getD 1 default).mu + r)
  | _ => ((comps.getD 0 default).mu - (comps.getD 0 default).sigma * sigma,
          (comps.getLastD default).mu + (comps.getLastD default).sigma * sigma)

/-- One order's column mask: a ones vector of length `H` with positions
strictly inside `(llim, ulim)` set to 0
(`ord[(x > llim) & (x < ulim)] = 0`, source lines 217 and 243). -/
def column_mask (H : ℕ) (llim ulim : ℚ) : List ℕ :=
  (List.range H).map (fun (i : ℕ) => if llim < (i : ℚ) ∧ (i : ℚ) < ulim then 0 else 1)

/-- The order-2 cutoff column (source line 153): 1900 when the column has
256 pixels, 1050 otherwise. -/
def order2end (H : ℕ) : ℕ := if H = 256 then 1900 else 1050

/-- Python's `str.lower()` for the ASCII filter names used here:
character-wise lowering. -/
def py_lower (s : String) : String := String.mk (s.data.map Char.toLower)

/-- Whether only a single-order model is fit (source line 156):
the trace is off the detector (`idx ≥ order2end`) or the filter is F277W
(`filt.lower() == 'f277w'`). -/
def single_order (idx H : ℕ) (filt : String) : Bool :=
  decide (idx ≥ order2end H) || decide (py_lower filt = "f277w")

/-- The model chosen for the fit: `batman` single-order, else `batmen`. -/
def chosen_func (idx H : ℕ) (filt : String) : FuncTag :=
  if single_order idx H filt then FuncTag.batman else FuncTag.batmen

/-- Single-order parameter bounds (source line 162). -/
def single_bounds (x1 : ℚ) : List ℚ × List ℚ :=
  ([x1-3, 2, 100, 2, 300, 5], [x1+3, 4, 10^6, 8, 10^6, 10])

/-- Dual-order parameter bounds, order-2 block first (source lines 184-185). -/
def dual_bounds (x1 x2 : ℚ) : List ℚ × List ℚ :=
  ([x2-3, 2, 3, 2, 3, 5, x1-3, 2, 100, 2, 300, 5],
   [x2+3, 4, 10^3, 8, 10^3, 10, x1+3, 4, 10^6, 8, 10^6, 10])

/-- The bounds actually handed to `curve_fit`.  The caller's `bounds`
argument is rebound unconditionally on source lines 162 and 184 before the
fit on line 189, so it never reaches `curve_fit`. -/
def chosen_bounds (idx H : ℕ) (bounds : Option (List ℚ × List ℚ)) (filt : String) :
    List ℚ × List ℚ :=
  let x1 := (trace_polynomial 1).getD idx 0
  let x2 := (trace_polynomial 2).getD idx 0
  if single_order idx H filt then single_bounds x1 else dual_bounds x1 x2

/-- The fitted parameter vector in canonical order-1-then-order-2 layout:
the `curve_fit` oracle (the external scipy optimizer; the `err` weights are
absorbed into it) is run on the column with the chosen model and bounds,
and the two halves of a 12-parameter result are swapped
(source lines 189-193). -/
def fit_params (idx : ℕ) (frame : List (List ℚ))
    (curve_fit : FuncTag → List ℚ → List ℚ × List ℚ → List ℚ)
    (bounds : Option (List ℚ × List ℚ)) (filt : String) : List ℚ :=
  -- col = frame[:, idx]
  let col := frame.map (fun row => row.getD idx 0)
  let params0 := curve_fit (chosen_func idx col.length filt) col
    (chosen_bounds idx col.length bounds filt)
  if params0.length = 12 then params0.drop 6 ++ params0.take 6 else params0

/-- The column isolator `isolate_signal(idx, frame, bounds, sigma, err,
radius, filt)`: returns the order-1 and order-2 masks for the column. -/
def isolate_signal (idx : ℕ) (frame : List (List ℚ))
    (curve_fit : FuncTag → List ℚ → List ℚ × List ℚ → List ℚ)
    (bounds : Option (List ℚ × List ℚ)) (sigma : ℚ) (radius : PyVal)
    (filt : String) : List ℕ × List ℕ :=
  let col := frame.map (fun row => row.getD idx 0)
  let H := col.length
  let func := chosen_func idx H filt
  let params := fit_params idx frame curve_fit bounds filt
  let l1 := fit_limits (sort_components (reduce_components params 0)) radius sigma
  let ord1 := column_mask H l1.1 l1.2
  let ord2 :=
    if func = FuncTag.batmen then
      let l2 := fit_limits (sort_components (reduce_components params 6)) radius sigma
      column_mask H l2.1 l2.2
    else
      List.replicate H 1
  (ord1, ord2)

/-! ### Order mask builder (`order_masks`) -/

/-- A thread-pool run of `isolate_signal` over the 2048 columns
(`pool.map(func, range(2048))`, source lines 54-58).  The pool's internal
completion order is modelled by `schedule`, a list of column indices in the
order the workers finish them; each finished column writes its own result
into its slot, and `pool.map` hands the slots back in input order. -/
def pool_run {α : Type} (schedule : List ℕ) (f : ℕ → α) (d : α) : List α :=
  schedule.foldl (fun acc i => acc.set i (f i)) (List.replicate 2048 d)

/-- Assemble the per-column mask pairs into the two full 2D order masks
(`order1[:, n] = ord1; order2[:, n] = ord2`, source lines 61-63), starting
from `np.zeros_like(frame)`.  Row `r`, column `n` of each output holds
entry `r` of column `n`'s mask. -/
def assemble_masks (H : ℕ) (results : List (List ℕ × List ℕ)) :
    List (List ℕ) × List (List ℕ) :=
  ((List.range H).map (fun r =>
      (List.range 2048).map (fun n => ((results.getD n ([], [])).1).getD r 0)),
   (List.range H).map (fun r =>
      (List.range 2048).map (fun n => ((results.getD n ([], [])).2).getD r 0)))

/-- The `save=True` branch of `order_masks` (source lines 46-66): dispatch
`isolate_signal` over all 2048 columns through the pool and assemble the
two full masks.  `n_jobs` only sizes the pool; the completion order it
induces is the `schedule` argument. -/
def order_masks_compute (frame : List (List ℚ))
    (curve_fit : FuncTag → List ℚ → List ℚ × List ℚ → List ℚ)
    (bounds : Option (List ℚ × List ℚ)) (sigma : ℚ) (radius : PyVal)
    (filt : String) (n_jobs : ℕ) (schedule : List ℕ) :
    List (List ℕ) × List (List ℕ) :=
  assemble_masks frame.length
    (pool_run schedule (fun n => isolate_signal n frame curve_fit bounds sigma radius filt)
      ([], []))

/-- Trim the masks when the subarray is SUBSTRIP96 (source lines 80-82). -/
def trim_mask (subarray : String) (m : List (List ℕ)) : List (List ℕ) :=
  if subarray = "SUBSTRIP96" then m.take 96 else m

/-- The builder `order_masks(frame, subarray, n_jobs, save)` with the `.npy` cache file
made explicit as `cache`.  Returns the value handed back to the caller and
the number of recomputation passes performed.  With `save=True` the masks
are computed, persisted and returned (after trimming).  With `save=False`
a present cache is loaded, trimmed and returned; an absent cache
(`FileNotFoundError`, source lines 74-77) triggers one recursive call with
`save=True` (whose keyword arguments revert to the defaults and whose
result is bound on line 76) followed by a bare `return` on line 77, so the
caller receives `None`. -/
def order_masks (frame : List (List ℚ))
    (curve_fit : FuncTag → List ℚ → List ℚ × List ℚ → List ℚ)
    (bounds : Option (List ℚ × List ℚ)) (sigma : ℚ) (radius : PyVal)
    (filt : String) (subarray : String) (n_jobs : ℕ) (schedule : List ℕ)
    (save : Bool) (cache : Option (List (List ℕ) × List (List ℕ))) :
    Option (List (List ℕ) × List (List ℕ)) × ℕ :=
  if save then
    let m := order_masks_compute frame curve_fit bounds sigma radius filt n_jobs schedule
    (some (trim_mask subarray m.1, trim_mask subarray m.2), 1)
  else
    match cache with
    | some m => (some (trim_mask subarray m.1, trim_mask subarray m.2), 0)
    | none =>
      -- `order1, order2 = order_masks(frame, save=True, plot=plot); return`
      let _recomputed :=
        order_masks_compute frame curve_fit Option.none 3 PyVal.none ("CLEAR") 4 schedule
      (Option.none, 1)

/-! ### Wavelength-bin indexer (`wavelength_bins`) -/

/-- Python list indexing: a negative index counts from the end, an index
at or past the length raises `IndexError` (`none`). -/
def py_get (l : List ℚ) (i : ℤ) : Option ℚ :=
  if i < 0 then
    if (-i) ≤ (l.length : ℤ) then some (l.getD (l.length - (-i).toNat) 0) else none
  else
    if i < (l.length : ℤ) then some (l.getD i.toNat 0) else none

/-- The `(dw0, dw1)` bin edges for sample `n` of the throughput wavelength
list `wl` (source lines 346-360): `w0 = wl[n-1]` with `except IndexError:
w0 = 0.1`, `w1 = wl[n+1]` with `except IndexError: w1 = 10`, edges are the
means `(w0+w)/2` and `(w1+w)/2`.  Note `wl[n-1]` at `n = 0` reads `wl[-1]`,
the last element, and raises no `IndexError`. -/
def bin_edges (wl : List ℚ) (n : ℕ) : ℚ × ℚ :=
  let w := wl.getD n 0
  let w0 := (py_get wl ((n : ℤ) - 1)).getD (1/10)
  let w1 := (py_get wl ((n : ℤ) + 1)).getD 10
  ((w0 + w) / 2, (w1 + w) / 2)

/-- Evaluation of `np.where(np.logical_and(wave_map >= dw0, wave_map < dw1))` on a 2D
map: the row-major list of coordinates whose value lies in `[dw0, dw1)`
(source line 363). -/
def bin_pixels (wave_map : List (List ℚ)) (dw0 dw1 : ℚ) : List (ℕ × ℕ) :=
  (List.range wave_map.length).flatMap (fun r =>
    ((List.range ((wave_map.getD r []).length)).filter (fun c =>
        decide (dw0 ≤ (wave_map.getD r []).getD c 0) &&
        decide ((wave_map.getD r []).getD c 0 < dw1))).map (fun c => (r, c)))

/-- All wavelength bins of one order: one pixel list per sample of the
throughput wavelength list (source lines 344-366). -/
def order_bins (wl : List ℚ) (wave_map : List (List ℚ)) : List (List (ℕ × ℕ)) :=
  (List.range wl.length).map (fun n =>
    let e := bin_edges wl n
    bin_pixels wave_map e.1 e.2)

/-- The `save=True` branch of `wavelength_bins`.  `files` holds, per order
1..3, the throughput wavelength column of `GR700XD_{order}.txt` when the
file exists (`os.path.isfile`, source lines 327-330); existing files are
appended in order to `filters`, which is then zipped positionally with the
three wavelength-calibration maps (line 341).  `signal_pixels` starts as
`[[], [], []]` and slot `order` of the zip enumeration is filled. -/
def wavelength_bins_save (files : List (Option (List ℚ)))
    (wavecal : List (List (List ℚ))) : List (List (List (ℕ × ℕ))) :=
  let filters := files.filterMap id
  let pairs := filters.zip wavecal
  (List.range 3).map (fun order =>
    match pairs.get? order with
    | some (wl, wave_map) => order_bins wl wave_map
    | none => [])

/-! ### Helper lemmas -/

/-- Reading entry `i < n` of a map over `List.range n`. -/
lemma getD_map_range {α : Type} (f : ℕ → α) (d : α) {i n : ℕ} (h : i < n) :
    ((List.range n).map f).getD i d = f i := by
  rw [List.getD_eq_getElem?_getD]
  simp [List.getElem?_map, List.getElem?_range h]

lemma length_column_mask (H : ℕ) (llim ulim : ℚ) :
    (column_mask H llim ulim).length = H := by
  simp [column_mask]

/-- The mask entry at `i` is 0 exactly when `i` is a pixel position
(`i < H`) strictly inside `(llim, ulim)`. -/
lemma column_mask_getD (H : ℕ) (llim ulim : ℚ) (i : ℕ) :
    (column_mask H llim ulim).getD i 1 = 0 ↔
      (i < H ∧ llim < (i : ℚ) ∧ (i : ℚ) < ulim) := by
  by_cases hi : i < H
  · rw [column_mask, getD_map_range _ _ hi]
    split_ifs with hin
    · simp [hi, hin]
    · simp [hin]
  · rw [List.getD_eq_default]
    · simp [hi]
    · simp [column_mask, not_lt.mp hi]

/-- Sorting a three-element component list yields a permutation of it that
is ordered by center position. -/
lemma sort_components_three (a b c : Gauss) :
    ∃ l m h, sort_components [a, b, c] = [l, m, h] ∧
      l.mu ≤ m.mu ∧ m.mu ≤ h.mu ∧ [l, m, h].Perm [a, b, c] := by
  have hab : [b, a, c].Perm [a, b, c] := List.Perm.swap a b [c]
  have hacb : [a, c, b].Perm [a, b, c] := List.Perm.cons a (List.Perm.swap b c [])
  have e : sort_components [a, b, c] = insert_mu c (insert_mu b [a]) := rfl
  by_cases h1 : b.mu < a.mu
  · have e2 : insert_mu b [a] = [b, a] := by simp [insert_mu, h1]
    by_cases h2 : c.mu < b.mu
    · exact ⟨c, b, a, by rw [e, e2]; simp [insert_mu, h2],
        le_of_lt h2, le_of_lt h1, List.reverse_perm [a, b, c]⟩
    · by_cases h3 : c.mu < a.mu
      · exact ⟨b, c, a, by rw [e, e2]; simp [insert_mu, h2, h3],
          not_lt.mp h2, le_of_lt h3,
          (List.Perm.cons b (List.Perm.swap a c [])).trans hab⟩
      · exact ⟨b, a, c, by rw [e, e2]; simp [insert_mu, h2, h3],
          le_of_lt h1, not_lt.mp h3, hab⟩
  · have e2 : insert_mu b [a] = [a, b] := by simp [insert_mu, h1]
    by_cases h4 : c.mu < a.mu
    · exact ⟨c, a, b, by rw [e, e2]; simp [insert_mu, h4],
        le_of_lt h4, not_lt.mp h1, (List.Perm.swap a c [b]).trans hacb⟩
    · by_cases h5 : c.mu < b.mu
      · exact ⟨a, c, b, by rw [e, e2]; simp [insert_mu, h4, h5],
          not_lt.mp h4, le_of_lt h5, hacb⟩
      · exact ⟨a, b, c, by rw [e, e2]; simp [insert_mu, h4, h5],
          not_lt.mp h1, not_lt.mp h5, List.Perm.refl _⟩

/-- Evaluating `fit_limits` on a sorted triple, by radius case. -/
lemma fit_limits_triple (l m h : Gauss) (radius : PyVal) (sigma : ℚ) :
    fit_limits [l, m, h] radius sigma =
      match radius with
      | PyVal.int r => (m.mu - r, m.mu + r)
      | _ => (l.mu - l.sigma * sigma, h.mu + h.sigma * sigma) := by
  cases radius <;> rfl

/-- Every element of a `foldl`-of-`set` run is the initial default or an
image of `f`. -/
lemma pool_run_mem {α : Type} {schedule : List ℕ} {f : ℕ → α} {d : α} {x : α}
    (hx : x ∈ pool_run schedule f d) : x = d ∨ ∃ n, x = f n := by
  rw [pool_run] at hx
  suffices hgen : ∀ (s : List ℕ) (init : List α), (∀ y ∈ init, y = d ∨ ∃ n, y = f n) →
      ∀ y ∈ s.foldl (fun acc i => acc.set i (f i)) init, y = d ∨ ∃ n, y = f n by
    exact hgen _ _ (fun y hy => Or.inl (List.eq_of_mem_replicate hy)) x hx
  intro s
  induction s with
  | nil => intro init hinit y hy; exact hinit y hy
  | cons i t ih =>
    intro init hinit y hy
    refine ih _ ?_ y hy
    intro z hz
    rcases List.mem_or_eq_of_mem_set hz with hz' | hz'
    · exact hinit z hz'
    · exact Or.inr ⟨i, hz'⟩

lemma pool_run_length {α : Type} (schedule : List ℕ) (f : ℕ → α) (d : α) :
    (pool_run schedule f d).length = 2048 := by
  rw [pool_run]
  suffices hgen : ∀ (s : List ℕ) (init : List α),
      (s.foldl (fun acc i => acc.set i (f i)) init).length = init.length by
    rw [hgen, List.length_replicate]
  intro s
  induction s with
  | nil => intro init; rfl
  | cons i t ih => intro init; rw [List.foldl_cons, ih, List.length_set]

/-- A slot not named by the schedule keeps its initial value. -/
lemma foldl_set_not_mem {α : Type} (f : ℕ → α) (s : List ℕ) (init : List α)
    (j : ℕ) (hj : j ∉ s) :
    (s.foldl (fun acc i => acc.set i (f i)) init)[j]? = init[j]? := by
  induction s generalizing init with
  | nil => rfl
  | cons i t ih =>
    rw [List.foldl_cons, ih _ (fun hmem => hj (List.mem_cons_of_mem i hmem))]
    refine List.getElem?_set_ne ?_
    intro hij
    exact hj (hij ▸ List.mem_cons_self i t)

/-- A slot named by the schedule ends up holding its own image. -/
lemma foldl_set_mem {α : Type} (f : ℕ → α) (s : List ℕ) (init : List α)
    (j : ℕ) (hj : j ∈ s) (hlen : j < init.length) :
    (s.foldl (fun acc i => acc.set i (f i)) init)[j]? = some (f j) := by
  induction s generalizing init with
  | nil => cases hj
  | cons i t ih =>
    rw [List.foldl_cons]
    by_cases hjt : j ∈ t
    · exact ih _ hjt (by rwa [List.length_set])
    · have hij : j = i := by
        rcases List.mem_cons.mp hj with h | h
        · exact h
        · exact absurd h hjt
      subst hij
      rw [foldl_set_not_mem _ _ _ _ hjt, List.getElem?_set_self hlen]

/-- When the schedule is a permutation of the 2048 column indices, the pool
produces exactly the in-order list of per-column results. -/
lemma pool_run_perm {α : Type} (schedule : List ℕ) (f : ℕ → α) (d : α)
    (hperm : schedule.Perm (List.range 2048)) :
    pool_run schedule f d = (List.range 2048).map f := by
  apply List.ext_getElem?
  intro j
  by_cases hj : j < 2048
  · have hmem : j ∈ schedule := hperm.mem_iff.mpr (List.mem_range.mpr hj)
    rw [pool_run, foldl_set_mem f schedule _ j hmem (by rwa [List.length_replicate])]
    rw [List.getElem?_map, List.getElem?_range hj, Option.map_some']
  · rw [List.getElem?_eq_none, List.getElem?_eq_none]
    · rw [List.length_map, List.length_range]; exact not_lt.mp hj
    · rw [pool_run_length]; exact not_lt.mp hj

/-- Unfolded form of `isolate_signal`. -/
lemma isolate_signal_def (idx : ℕ) (frame : List (List ℚ))
    (curve_fit : FuncTag → List ℚ → List ℚ × List ℚ → List ℚ)
    (bounds : Option (List ℚ × List ℚ)) (sigma : ℚ) (radius : PyVal)
    (filt : String) :
    isolate_signal idx frame curve_fit bounds sigma radius filt =
      (column_mask (frame.map (fun row => row.getD idx 0)).length
        (fit_limits (sort_components
          (reduce_components (fit_params idx frame curve_fit bounds filt) 0)) radius sigma).1
        (fit_limits (sort_components
          (reduce_components (fit_params idx frame curve_fit bounds filt) 0)) radius sigma).2,
       if chosen_func idx (frame.map (fun row => row.getD idx 0)).length filt = FuncTag.batmen then
         column_mask (frame.map (fun row => row.getD idx 0)).length
          (fit_limits (sort_components
            (reduce_components (fit_params idx frame curve_fit bounds filt) 6)) radius sigma).1
          (fit_limits (sort_components
            (reduce_components (fit_params idx frame curve_fit bounds filt) 6)) radius sigma).2
       else List.replicate (frame.map (fun row => row.getD idx 0)).length 1) := rfl

/-- Entries of a column mask are 0 or 1. -/
lemma column_mask_mem {H : ℕ} {llim ulim : ℚ} {v : ℕ}
    (hv : v ∈ column_mask H llim ulim) : v = 0 ∨ v = 1 := by
  rw [column_mask] at hv
  rcases List.mem_map.mp hv with ⟨i, _, hi⟩
  by_cases hc : llim < (i : ℚ) ∧ (i : ℚ) < ulim
  · left; rw [← hi]; simp [hc]
  · right; rw [← hi]; simp [hc]

/-- A defaulted read is either the default or a member of the list. -/
lemma getD_cases {α : Type} (l : List α) (k : ℕ) (d : α) :
    l.getD k d = d ∨ l.getD k d ∈ l := by
  by_cases h : k < l.length
  · right; rw [List.getD_eq_getElem l d h]; exact l.getElem_mem h
  · left; exact List.getD_eq_default _ _ (not_lt.mp h)

/-- Reading any slot of a list whose members are all 0 or 1 with default 0
yields 0 or 1. -/
lemma getD_zero_binary {l : List ℕ} (hl : ∀ x ∈ l, x = 0 ∨ x = 1) (r : ℕ) :
    l.getD r 0 = 0 ∨ l.getD r 0 = 1 := by
  by_cases h : r < l.length
  · exact hl _ (by rw [List.getD_eq_getElem l 0 h]; exact l.getElem_mem h)
  · left; exact List.getD_eq_default _ _ (not_lt.mp h)

/-- Every entry of either mask returned by `isolate_signal` is 0 or 1. -/
lemma isolate_signal_entries_binary (idx : ℕ) (frame : List (List ℚ))
    (curve_fit : FuncTag → List ℚ → List ℚ × List ℚ → List ℚ)
    (bounds : Option (List ℚ × List ℚ)) (sigma : ℚ) (radius : PyVal)
    (filt : String) :
    (∀ v ∈ (isolate_signal idx frame curve_fit bounds sigma radius filt).1, v = 0 ∨ v = 1) ∧
    (∀ v ∈ (isolate_signal idx frame curve_fit bounds sigma radius filt).2, v = 0 ∨ v = 1) := by
  rw [isolate_signal_def]
  constructor
  · intro v hv
    exact column_mask_mem hv
  · intro v hv
    by_cases hf : chosen_func idx (frame.map (fun row => row.getD idx 0)).length filt =
        FuncTag.batmen
    · rw [if_pos hf] at hv
      exact column_mask_mem hv
    · rw [if_neg hf] at hv
      right
      exact List.eq_of_mem_replicate hv

/-! ### Claim theorems -/

/-- C8: for every order in {1, 2}, the trace-center model returns a
deterministic sequence of length 2048 whose idx-th entry, for every idx in
[0, 2048), equals the evaluation of the fixed order-specific polynomial
coefficients at idx. -/
theorem trace_polynomial_spec (order : ℕ) (horder : order = 1 ∨ order = 2) :
    (trace_polynomial order).length = 2048 ∧
      ∀ idx, idx < 2048 →
        (trace_polynomial order).getD idx 0 = polyval (trace_coeffs order) (idx : ℚ) := by
  refine ⟨by simp [trace_polynomial], ?_⟩
  intro idx hidx
  rw [trace_polynomial, getD_map_range _ _ hidx]

/-- Witness for C8 at order 1, column 5. -/
theorem trace_polynomial_spec_witness :
    ((1 : ℕ) = 1 ∨ (1 : ℕ) = 2) ∧ (trace_polynomial 1).length = 2048 ∧
      (trace_polynomial 1).getD 5 0 = polyval (trace_coeffs 1) ((5 : ℕ) : ℚ) :=
  ⟨Or.inl rfl, (trace_polynomial_spec 1 (Or.inl rfl)).1,
    (trace_polynomial_spec 1 (Or.inl rfl)).2 5 (by decide)⟩

/-- C3: when the cache artifact is absent and recomputation was not
requested, `order_masks` performs exactly one recomputation pass (the
single recursive `save=True` call, no retry loop) but then executes a bare
`return`, handing `None` back to the caller instead of the two assembled
masks. -/
theorem order_masks_cache_miss_returns_none (frame : List (List ℚ))
    (curve_fit : FuncTag → List ℚ → List ℚ × List ℚ → List ℚ)
    (bounds : Option (List ℚ × List ℚ)) (sigma : ℚ) (radius : PyVal)
    (filt : String) (subarray : String) (n_jobs : ℕ) (schedule : List ℕ) :
    order_masks frame curve_fit bounds sigma radius filt subarray n_jobs schedule
      false Option.none = (Option.none, 1) := rfl

/-- C4 counterexample: a caller-supplied `bounds` argument does not reach
the fit; at column 0 of a 256-row frame with filter CLEAR the bounds
handed to `curve_fit` are not the caller's `([1], [2])`. -/
theorem isolate_signal_caller_bounds_cex :
    chosen_bounds 0 256 (some ([1], [2])) ("CLEAR") ≠ ([1], [2]) := by
  intro h
  have hso : single_order 0 256 ("CLEAR") = false := by decide
  have h1 : (chosen_bounds 0 256 (some ([1], [2])) ("CLEAR")).1.length = 12 := by
    rw [chosen_bounds, hso]
    simp [dual_bounds]
  rw [h] at h1
  simp at h1

/-- C4 amended: the caller-supplied bounds argument is ignored — the
bounds handed to `curve_fit` and the resulting masks are identical
whatever bounds the caller supplies (the default bounds are rebound
unconditionally before the fit). -/
theorem isolate_signal_ignores_caller_bounds (idx H : ℕ)
    (b b' : Option (List ℚ × List ℚ)) (filt : String)
    (frame : List (List ℚ))
    (curve_fit : FuncTag → List ℚ → List ℚ × List ℚ → List ℚ)
    (sigma : ℚ) (radius : PyVal) :
    chosen_bounds idx H b filt = chosen_bounds idx H b' filt ∧
    isolate_signal idx frame curve_fit b sigma radius filt =
      isolate_signal idx frame curve_fit b' sigma radius filt :=
  ⟨rfl, rfl⟩

/-- C5: at the first throughput sample (`n = 0`) the code reads
`throughput[0][-1]` — the last wavelength, via Python negative indexing —
so the lower bin edge of `[1, 2, 3]` at `n = 0` is `mean(3, 1) = 2`, not
the sentinel midpoint `mean(0.1, 1) = 0.55` the `except IndexError`
branch intends; the upper edge at the last sample does use the
sentinel 10. -/
theorem bin_edges_first_sample_bug :
    bin_edges [1, 2, 3] 0 = (2, 3/2) ∧ (2 : ℚ) ≠ (1/10 + 1) / 2 ∧
      bin_edges [1, 2, 3] 2 = ((2 + 3) / 2, (10 + 3) / 2) := by
  refine ⟨?_, by norm_num, ?_⟩ <;>
    · rw [bin_edges]
      norm_num [py_get]

/-- C9: the radius-based signal region is applied only for an `int` radius
(`isinstance(radius, int)`); a `float` (or `None`) radius is silently
ignored and the sigma-based bounds are used, so `isolate_signal` behaves
identically for a float radius and no radius. -/
theorem fit_limits_radius_isinstance_int (comps : List Gauss) (r : ℤ) (q sigma : ℚ)
    (idx : ℕ) (frame : List (List ℚ))
    (curve_fit : FuncTag → List ℚ → List ℚ × List ℚ → List ℚ)
    (cb : Option (List ℚ × List ℚ)) (filt : String) :
    fit_limits comps (PyVal.int r) sigma =
      ((comps.getD 1 default).mu - (r : ℚ), (comps.getD 1 default).mu + (r : ℚ)) ∧
    fit_limits comps (PyVal.float q) sigma =
      ((comps.getD 0 default).mu - (comps.getD 0 default).sigma * sigma,
       (comps.getLastD default).mu + (comps.getLastD default).sigma * sigma) ∧
    fit_limits comps (PyVal.float q) sigma = fit_limits comps PyVal.none sigma ∧
    isolate_signal idx frame curve_fit cb sigma (PyVal.float q) filt =
      isolate_signal idx frame curve_fit cb sigma PyVal.none filt :=
  ⟨rfl, rfl, rfl, rfl⟩

/-- C1: after the fit the three derived components per order are sorted by
center position into a triple `l, m, h` (a permutation of the derived
components with `l.mu ≤ m.mu ≤ h.mu`); an `int` radius gives the region
`m.mu ± radius`, otherwise the region is `l.mu − l.σ·sigma` to
`h.mu + h.σ·sigma`; and the returned masks are 0 exactly at pixel
positions strictly inside the derived `(llim, ulim)` bound. -/
theorem isolate_signal_mask_bounds (idx : ℕ) (frame : List (List ℚ))
    (curve_fit : FuncTag → List ℚ → List ℚ × List ℚ → List ℚ)
    (cb : Option (List ℚ × List ℚ)) (sigma : ℚ) (radius : PyVal) (filt : String)
    (params : List ℚ) (off : ℕ) :
    (∃ l m h, sort_components (reduce_components params off) = [l, m, h] ∧
       l.mu ≤ m.mu ∧ m.mu ≤ h.mu ∧
       [l, m, h].Perm (reduce_components params off) ∧
       fit_limits (sort_components (reduce_components params off)) radius sigma =
         (match radius with
          | PyVal.int r => (m.mu - (r : ℚ), m.mu + (r : ℚ))
          | _ => (l.mu - l.sigma * sigma, h.mu + h.sigma * sigma))) ∧
    (∀ llim ulim i, (column_mask (frame.map (fun row => row.getD idx 0)).length
        llim ulim).getD i 1 = 0 ↔
      (i < (frame.map (fun row => row.getD idx 0)).length ∧
        llim < (i : ℚ) ∧ (i : ℚ) < ulim)) ∧
    (isolate_signal idx frame curve_fit cb sigma radius filt).1 =
      column_mask (frame.map (fun row => row.getD idx 0)).length
        (fit_limits (sort_components
          (reduce_components (fit_params idx frame curve_fit cb filt) 0)) radius sigma).1
        (fit_limits (sort_components
          (reduce_components (fit_params idx frame curve_fit cb filt) 0)) radius sigma).2 ∧
    (isolate_signal idx frame curve_fit cb sigma radius filt).2 =
      (if chosen_func idx (frame.map (fun row => row.getD idx 0)).length filt =
          FuncTag.batmen then
        column_mask (frame.map (fun row => row.getD idx 0)).length
          (fit_limits (sort_components
            (reduce_components (fit_params idx frame curve_fit cb filt) 6)) radius sigma).1
          (fit_limits (sort_components
            (reduce_components (fit_params idx frame curve_fit cb filt) 6)) radius sigma).2
       else List.replicate (frame.map (fun row => row.getD idx 0)).length 1) := by
  refine ⟨?_, ?_, rfl, rfl⟩
  · obtain ⟨l, m, h, hs, hlm, hmh, hp⟩ := sort_components_three
      ⟨pget params off, pget params (off+1), pget params (off+2)⟩
      ⟨pget params off - pget params (off+5), pget params (off+3), pget params (off+4)⟩
      ⟨pget params off + pget params (off+5), pget params (off+3), pget params (off+4)⟩
    refine ⟨l, m, h, hs, hlm, hmh, hp, ?_⟩
    rw [show sort_components (reduce_components params off) = [l, m, h] from hs]
    exact fit_limits_triple l m h radius sigma
  · intro llim ulim i
    exact column_mask_getD _ llim ulim i

/-- C2: whenever the filter is F277W or the column index is at or beyond
the order-2 cutoff — 1900 for a 256-row frame, 1050 otherwise — only the
single-order 6-parameter model is fit and the order-2 mask is all ones
(fully excluded). -/
theorem isolate_signal_order2_excluded (idx : ℕ) (frame : List (List ℚ))
    (curve_fit : FuncTag → List ℚ → List ℚ × List ℚ → List ℚ)
    (cb : Option (List ℚ × List ℚ)) (sigma : ℚ) (radius : PyVal) (filt : String)
    (hcase : filt = "F277W" ∨ idx ≥ order2end frame.length) :
    chosen_func idx frame.length filt = FuncTag.batman ∧
    (chosen_bounds idx frame.length cb filt).1.length = 6 ∧
    (chosen_bounds idx frame.length cb filt).2.length = 6 ∧
    (isolate_signal idx frame curve_fit cb sigma radius filt).2 =
      List.replicate frame.length 1 ∧
    order2end 256 = 1900 ∧ ∀ H, H ≠ 256 → order2end H = 1050 := by
  have hso : single_order idx frame.length filt = true := by
    rcases hcase with h | h
    · subst h
      rw [single_order, Bool.or_eq_true]
      right
      decide
    · rw [single_order, Bool.or_eq_true]
      left
      exact decide_eq_true h
  have hcf : chosen_func idx frame.length filt = FuncTag.batman := by
    rw [chosen_func, hso]
    rfl
  refine ⟨hcf, ?_, ?_, ?_, rfl, ?_⟩
  · rw [chosen_bounds]
    rw [hso]
    simp [single_bounds]
  · rw [chosen_bounds]
    rw [hso]
    simp [single_bounds]
  · rw [isolate_signal_def]
    have hlen : (frame.map (fun row => row.getD idx 0)).length = frame.length :=
      List.length_map _ _
    rw [hlen, hcf]
    simp
  · intro H hH
    rw [order2end, if_neg hH]

/-- Witness for C2: filter F277W on a 2-row frame at column 0, plus the
off-256 cutoff value. -/
theorem isolate_signal_order2_excluded_witness :
    (("F277W" : String) = "F277W" ∨ 0 ≥ order2end 2) ∧
    (isolate_signal 0 [[5], [7]] (fun _ _ _ => []) Option.none 3 PyVal.none
      ("F277W")).2 = List.replicate 2 1 ∧
    order2end 100 = 1050 ∧ (100 : ℕ) ≠ 256 := by
  have h := isolate_signal_order2_excluded 0 [[5], [7]] (fun _ _ _ => [])
    Option.none 3 PyVal.none ("F277W") (Or.inl rfl)
  exact ⟨Or.inl rfl, h.2.2.2.1, h.2.2.2.2.2 100 (by decide), by decide⟩

/-- C10: every entry of both per-column masks returned by `isolate_signal`
is 0 or 1 (each mask starts as ones and entries are only ever set to 0),
and every entry of both assembled full-frame order masks is likewise 0
or 1. -/
theorem masks_binary (idx : ℕ) (frame : List (List ℚ))
    (curve_fit : FuncTag → List ℚ → List ℚ × List ℚ → List ℚ)
    (cb : Option (List ℚ × List ℚ)) (sigma : ℚ) (radius : PyVal) (filt : String)
    (n_jobs : ℕ) (schedule : List ℕ) (i r n : ℕ) :
    ((isolate_signal idx frame curve_fit cb sigma radius filt).1.getD i 1 = 0 ∨
     (isolate_signal idx frame curve_fit cb sigma radius filt).1.getD i 1 = 1) ∧
    ((isolate_signal idx frame curve_fit cb sigma radius filt).2.getD i 1 = 0 ∨
     (isolate_signal idx frame curve_fit cb sigma radius filt).2.getD i 1 = 1) ∧
    (((order_masks_compute frame curve_fit cb sigma radius filt n_jobs
        schedule).1.getD r []).getD n 0 = 0 ∨
     ((order_masks_compute frame curve_fit cb sigma radius filt n_jobs
        schedule).1.getD r []).getD n 0 = 1) ∧
    (((order_masks_compute frame curve_fit cb sigma radius filt n_jobs
        schedule).2.getD r []).getD n 0 = 0 ∨
     ((order_masks_compute frame curve_fit cb sigma radius filt n_jobs
        schedule).2.getD r []).getD n 0 = 1) := by
  have hiso := isolate_signal_entries_binary idx frame curve_fit cb sigma radius filt
  have hbin1 : ∀ (l : List ℕ), (∀ x ∈ l, x = 0 ∨ x = 1) →
      l.getD i 1 = 0 ∨ l.getD i 1 = 1 := by
    intro l hl
    by_cases h : i < l.length
    · exact hl _ (by rw [List.getD_eq_getElem l 1 h]; exact l.getElem_mem h)
    · right; exact List.getD_eq_default _ _ (not_lt.mp h)
  have hpool : ∀ (k : ℕ),
      (∀ w ∈ ((pool_run schedule
          (fun j => isolate_signal j frame curve_fit cb sigma radius filt)
          ([], [])).getD k ([], [])).1, w = 0 ∨ w = 1) ∧
      (∀ w ∈ ((pool_run schedule
          (fun j => isolate_signal j frame curve_fit cb sigma radius filt)
          ([], [])).getD k ([], [])).2, w = 0 ∨ w = 1) := by
    intro k
    rcases getD_cases (pool_run schedule
        (fun j => isolate_signal j frame curve_fit cb sigma radius filt) ([], []))
        k ([], []) with hd | hm
    · rw [hd]
      exact ⟨fun w hw => absurd hw (List.not_mem_nil w),
        fun w hw => absurd hw (List.not_mem_nil w)⟩
    · rcases pool_run_mem hm with hd' | ⟨j, hj⟩
      · rw [hd']
        exact ⟨fun w hw => absurd hw (List.not_mem_nil w),
          fun w hw => absurd hw (List.not_mem_nil w)⟩
      · rw [hj]
        exact isolate_signal_entries_binary j frame curve_fit cb sigma radius filt
  refine ⟨hbin1 _ hiso.1, hbin1 _ hiso.2, ?_, ?_⟩
  · simp only [order_masks_compute, assemble_masks]
    rcases getD_cases ((List.range frame.length).map (fun rr =>
        (List.range 2048).map (fun nn =>
          ((pool_run schedule
              (fun j => isolate_signal j frame curve_fit cb sigma radius filt)
              ([], [])).getD nn ([], [])).1.getD rr 0))) r [] with hd | hm
    · rw [hd]
      left
      rfl
    · rcases List.mem_map.mp hm with ⟨rr, _, hrr⟩
      rw [← hrr]
      apply getD_zero_binary
      intro x hx
      rcases List.mem_map.mp hx with ⟨nn, _, hnn⟩
      rw [← hnn]
      exact getD_zero_binary (hpool nn).1 rr
  · simp only [order_masks_compute, assemble_masks]
    rcases getD_cases ((List.range frame.length).map (fun rr =>
        (List.range 2048).map (fun nn =>
          ((pool_run schedule
              (fun j => isolate_signal j frame curve_fit cb sigma radius filt)
              ([], [])).getD nn ([], [])).2.getD rr 0))) r [] with hd | hm
    · rw [hd]
      left
      rfl
    · rcases List.mem_map.mp hm with ⟨rr, _, hrr⟩
      rw [← hrr]
      apply getD_zero_binary
      intro x hx
      rcases List.mem_map.mp hx with ⟨nn, _, hnn⟩
      rw [← hnn]
      exact getD_zero_binary (hpool nn).2 rr

/-- C7: the assembled pair of full 2D order masks is independent of the
worker count and of the pool's completion order — any two schedules that
each cover the 2048 columns produce identical outputs. -/
theorem order_masks_schedule_independent (frame : List (List ℚ))
    (curve_fit : FuncTag → List ℚ → List ℚ × List ℚ → List ℚ)
    (cb : Option (List ℚ × List ℚ)) (sigma : ℚ) (radius : PyVal) (filt : String)
    (n_jobs₁ n_jobs₂ : ℕ) (s₁ s₂ : List ℕ)
    (h₁ : s₁.Perm (List.range 2048)) (h₂ : s₂.Perm (List.range 2048)) :
    order_masks_compute frame curve_fit cb sigma radius filt n_jobs₁ s₁ =
      order_masks_compute frame curve_fit cb sigma radius filt n_jobs₂ s₂ := by
  rw [order_masks_compute, order_masks_compute, pool_run_perm _ _ _ h₁,
    pool_run_perm _ _ _ h₂]

/-- Witness for C7: 1 worker with in-order completion versus 8 workers
with reversed completion order on a one-row frame. -/
theorem order_masks_schedule_independent_witness :
    order_masks_compute [[5]] (fun _ _ _ => []) Option.none 3 PyVal.none ("CLEAR")
        1 (List.range 2048) =
      order_masks_compute [[5]] (fun _ _ _ => []) Option.none 3 PyVal.none ("CLEAR")
        8 ((List.range 2048).reverse) :=
  order_masks_schedule_independent [[5]] (fun _ _ _ => []) Option.none 3 PyVal.none
    ("CLEAR") 1 8 (List.range 2048) ((List.range 2048).reverse)
    (List.Perm.refl _) (List.reverse_perm _)

/-- C6 counterexample: with the order-1 throughput file absent
(throughputs `[2]` for order 2 and `[3]` for order 3, wavelength maps
`[[1]]`, `[[2]]`, `[[3]]`), slot 0 of the result is NOT an empty bin list
(order 2's throughput is paired with order 1's map), and slot 1 differs
from the all-files-present run. -/
theorem wavelength_bins_missing_first_cex :
    (wavelength_bins_save [Option.none, some [2], some [3]]
        [[[1]], [[2]], [[3]]]).getD 0 [] ≠ [] ∧
    (wavelength_bins_save [Option.none, some [2], some [3]]
        [[[1]], [[2]], [[3]]]).getD 1 [] ≠
      (wavelength_bins_save [some [1], some [2], some [3]]
        [[[1]], [[2]], [[3]]]).getD 1 [] := by
  have e1 : wavelength_bins_save [Option.none, some [2], some [3]]
      [[[1]], [[2]], [[3]]] = [order_bins [2] [[1]], order_bins [3] [[2]], []] := by
    rw [wavelength_bins_save]
    simp [List.range_succ]
  have e2 : wavelength_bins_save [some [1], some [2], some [3]]
      [[[1]], [[2]], [[3]]] = [order_bins [1] [[1]], order_bins [2] [[2]],
        order_bins [3] [[3]]] := by
    rw [wavelength_bins_save]
    simp [List.range_succ]
  have b1 : order_bins [2] [[1]] = [bin_pixels [[1]] 2 6] := by
    rw [order_bins]
    simp only [List.length_cons, List.length_nil, List.range_succ, List.range_zero,
      List.nil_append, List.map_cons, List.map_nil]
    have : bin_edges [2] 0 = (2, 6) := by rw [bin_edges]; norm_num [py_get]
    rw [this]
  have b2 : order_bins [3] [[2]] = [bin_pixels [[2]] 3 (13/2)] := by
    rw [order_bins]
    simp only [List.length_cons, List.length_nil, List.range_succ, List.range_zero,
      List.nil_append, List.map_cons, List.map_nil]
    have : bin_edges [3] 0 = (3, 13/2) := by rw [bin_edges]; norm_num [py_get]
    rw [this]
  have b3 : order_bins [2] [[2]] = [bin_pixels [[2]] 2 6] := by
    rw [order_bins]
    simp only [List.length_cons, List.length_nil, List.range_succ, List.range_zero,
      List.nil_append, List.map_cons, List.map_nil]
    have : bin_edges [2] 0 = (2, 6) := by rw [bin_edges]; norm_num [py_get]
    rw [this]
  have p1 : bin_pixels [[1]] 2 6 = [] := by
    rw [bin_pixels]
    norm_num [List.range_succ, List.flatMap_cons, List.flatMap_nil, List.filter_cons]
  have p2 : bin_pixels [[2]] 3 (13/2) = [] := by
    rw [bin_pixels]
    norm_num [List.range_succ, List.flatMap_cons, List.flatMap_nil, List.filter_cons]
  have p3 : bin_pixels [[2]] 2 6 = [(0, 0)] := by
    rw [bin_pixels]
    norm_num [List.range_succ, List.flatMap_cons, List.flatMap_nil, List.filter_cons]
  rw [e1, e2]
  constructor
  · rw [b1, p1]
    simp
  · rw [b2, b3, p2, p3]
    simp

/-- C6 amended: a missing throughput file drops its slot from the
positional `zip` pairing.  When the absent file is the LAST order's, that
order gets an empty bin list and the other orders' bins match the
all-present run; a missing earlier order instead shifts the remaining
throughputs onto lower orders' calibration maps (refuted concretely by the
counterexample). -/
theorem wavelength_bins_missing_last_order (wl1 wl2 wl3 : List ℚ)
    (wavecal : List (List (List ℚ))) :
    (wavelength_bins_save [some wl1, some wl2, Option.none] wavecal).getD 2 [] = [] ∧
    (wavelength_bins_save [some wl1, some wl2, Option.none] wavecal).getD 0 [] =
      (wavelength_bins_save [some wl1, some wl2, some wl3] wavecal).getD 0 [] ∧
    (wavelength_bins_save [some wl1, some wl2, Option.none] wavecal).getD 1 [] =
      (wavelength_bins_save [some wl1, some wl2, some wl3] wavecal).getD 1 [] ∧
    (wavelength_bins_save [some wl1, some wl2, Option.none] wavecal).length = 3 := by
  have hr : ∀ (files : List (Option (List ℚ))) (k : ℕ), k < 3 →
      (wavelength_bins_save files wavecal).getD k [] =
        (match ((files.filterMap id).zip wavecal).get? k with
         | some (wl, wm) => order_bins wl wm
         | none => []) := by
    intro files k hk
    rw [wavelength_bins_save]
    exact getD_map_range _ _ hk
  have hf1 : ([some wl1, some wl2, Option.none].filterMap
      (id : Option (List ℚ) → Option (List ℚ))) = [wl1, wl2] := by
    simp
  have hf2 : ([some wl1, some wl2, some wl3].filterMap
      (id : Option (List ℚ) → Option (List ℚ))) = [wl1, wl2, wl3] := by
    simp
  refine ⟨?_, ?_, ?_, ?_⟩
  · rw [hr _ 2 (by decide), hf1]
    have : ([wl1, wl2].zip wavecal).get? 2 = Option.none := by
      apply List.get?_eq_none.mpr
      calc ([wl1, wl2].zip wavecal).length ≤ [wl1, wl2].length :=
            (List.length_zip _ _).trans_le (min_le_left _ _)
        _ ≤ 2 := le_refl _
    rw [this]
  · rw [hr _ 0 (by decide), hr _ 0 (by decide), hf1, hf2]
    rcases wavecal with _ | ⟨w1, _ | ⟨w2, t⟩⟩ <;> simp [List.zip]
  · rw [hr _ 1 (by decide), hr _ 1 (by decide), hf1, hf2]
    rcases wavecal with _ | ⟨w1, _ | ⟨w2, t⟩⟩ <;> simp [List.zip]
  · rw [wavelength_bins_save]
    simp

end LocateTrace
